import Mathlib

set_option linter.unusedVariables false

attribute [local semireducible] Rat.mul Rat.add Rat.sub Rat.inv

namespace AccentPractice

/-!
Shallow embedding of the accent-practice backend, translated from
src/backend/services/accent_engine.py, src/backend/services/session_manager.py,
src/backend/routers/sessions.py and src/backend/routers/accent.py.
Word confidences and scores are modelled as rationals.
-/

/-- Characters matched by the regex class [\w\x27] of PUNCT_RE
    (ASCII word characters or apostrophe). -/
def isWordChar (c : Char) : Bool :=
  c.isAlphanum || c == '_' || c == Char.ofNat 39

/-- Whitespace characters matched by the regex \s of WORD_SPLIT_RE (ASCII). -/
def isSpaceChar (c : Char) : Bool :=
  c == ' ' || c == Char.ofNat 9 || c == Char.ofNat 10 || c == Char.ofNat 13 ||
    c == Char.ofNat 11 || c == Char.ofNat 12

/-- _strip_punct: PUNCT_RE.sub("", token).lower() removes the leading run and the
    trailing run of non-[\w\x27] characters of the token, then lowercases. -/
def stripPunct (token : String) : String :=
  let cs := token.toList
  let trimmed :=
    ((cs.dropWhile (fun c => !(isWordChar c))).reverse.dropWhile
      (fun c => !(isWordChar c))).reverse
  String.mk (trimmed.map Char.toLower)

/-- Helper for _tokenise: split a character list into the maximal runs of
    non-whitespace characters (WORD_SPLIT_RE.split over the stripped text with
    empty pieces filtered out leaves exactly those runs). -/
def splitRuns : List Char → List Char → List String
  | [], acc => if acc.isEmpty then [] else [String.mk acc.reverse]
  | c :: rest, acc =>
    if isSpaceChar c then
      if acc.isEmpty then splitRuns rest []
      else String.mk acc.reverse :: splitRuns rest []
    else splitRuns rest (c :: acc)

/-- _tokenise: the whitespace-delimited tokens of the text. -/
def tokenise (text : String) : List String := splitRuns text.toList []

structure RecognisedWord where
  word : String
  confidence : ℚ
deriving Repr, DecidableEq

/-- Per-word feedback value object. Field order follows the Python dataclass:
    text, status, note, spoken, confidence, issue_code. -/
structure WordFeedback where
  text : String
  status : String
  note : Option String
  spoken : Option String
  confidence : Option ℚ
  issue_code : Option String
deriving Repr, DecidableEq

def CONFIDENCE_THRESHOLD : ℚ := 85 / 100

def ACCENT_R_SENSITIVE : List String :=
  ["car", "far", "weather", "colour", "color", "near", "door", "floor"]

def BRITISH_FLAP_WORDS : List String := ["water", "butter", "city", "better"]

def BRITISH_BROAD_A : List String := ["bath", "path", "glass", "can\x27t", "dance"]

/-- Round a rational to the nearest integer with ties to even: the rounding mode of
    Python round() and of %-style formatting, modelled over ℚ. -/
def roundHalfEven (q : ℚ) : ℤ :=
  let f : ℤ := ⌊q⌋
  let r : ℚ := q - (f : ℚ)
  if r < 1 / 2 then f
  else if 1 / 2 < r then f + 1
  else if f % 2 = 0 then f else f + 1

/-- Python round(x, 2) over ℚ. -/
def round2 (q : ℚ) : ℚ := (roundHalfEven (q * 100) : ℚ) / 100

/-- The Python format spec {:.0%}: the value as a percentage with no decimals. -/
def pctText (q : ℚ) : String := toString (roundHalfEven (q * 100)) ++ "%"

/-- Python str.capitalize(): first character uppercased, the rest lowercased. -/
def capitalize (s : String) : String :=
  match s.toList with
  | [] => ""
  | c :: rest => String.mk (c.toUpper :: rest.map Char.toLower)

/-- Python str.lower() (ASCII). -/
def lowerStr (s : String) : String := String.mk (s.toList.map Char.toLower)

/-- Wrap a string in single quotes, as the f-strings of the engine do. -/
def quo (s : String) : String := "\x27" ++ s ++ "\x27"

/-- str.endswith("r") on the stripped (already lowercased) form. -/
def endsInR (s : String) : Bool := s.toList.getLast? == some 'r'

/-- Feedback for a pure-punctuation expected token (stripped form empty). -/
def punctFeedback (expected : String) : WordFeedback :=
  ⟨expected, "ok", none, none, none, none⟩

/-- Feedback for an expected token once the recognized-word cursor is exhausted. -/
def missingFeedback (accentLabel expected : String) : WordFeedback :=
  ⟨expected, "bad",
    some ("The word " ++ quo expected ++ " was missing. Include it when you deliver the "
      ++ accentLabel ++ " line."),
    none, none, some "word_missing"⟩

/-- Feedback for an expected token compared against the next recognized word. -/
def compareFeedback (accentLabel expected : String) (spoken : RecognisedWord) : WordFeedback :=
  if stripPunct spoken.word == stripPunct expected then
    if CONFIDENCE_THRESHOLD ≤ spoken.confidence then
      ⟨expected, "ok", none, some spoken.word, some spoken.confidence, none⟩
    else
      ⟨expected, "bad",
        some (quo spoken.word ++ " sounded unclear (confidence " ++ pctText spoken.confidence
          ++ "). Enunciate it a bit more for " ++ accentLabel ++ " English."),
        some spoken.word, some spoken.confidence, some "low_confidence"⟩
  else
    ⟨expected, "bad",
      some ("Heard " ++ quo spoken.word ++ " instead of " ++ quo expected ++ ". Revisit the "
        ++ accentLabel ++ " pronunciation of " ++ quo expected ++ "."),
      some spoken.word, some spoken.confidence, some "mismatch"⟩

/-- The alignment walk of evaluate_attempt: expected tokens in order with a single
    forward cursor into the recognized words. The cursor never rewinds, so it is
    modelled by recursing on the unconsumed suffix of the recognized list. -/
def alignLoop (accentLabel : String) :
    List String → List RecognisedWord → List WordFeedback
  | [], _ => []
  | expected :: rest, spokenTokens =>
    if stripPunct expected == "" then
      punctFeedback expected :: alignLoop accentLabel rest spokenTokens
    else
      match spokenTokens with
      | [] => missingFeedback accentLabel expected :: alignLoop accentLabel rest []
      | s :: remaining =>
        compareFeedback accentLabel expected s :: alignLoop accentLabel rest remaining

/-- Note text of the american_soft_r reclassification of an ok item.
    The extra sentence is appended when item.spoken is truthy (non-empty). -/
def americanSoftRNoteOk (item : WordFeedback) : String :=
  let base := "Keep the American R fully pronounced in " ++ quo item.text ++ "."
  match item.spoken with
  | some s => if s == "" then base else base ++ " It came through closer to " ++ quo s ++ "."
  | none => base

/-- Note text of the american_soft_r reclassification of a low_confidence item. -/
def americanSoftRNoteBad (item : WordFeedback) : String :=
  let base := "The R in " ++ quo item.text ++ " faded away. Exaggerate it for American English."
  match item.spoken with
  | some s => if s == "" then base else base ++ " We caught it as " ++ quo s ++ "."
  | none => base

/-- Note text of the british_r reclassification. -/
def britishRNote (item : WordFeedback) : String :=
  let base := "Soften the ending R in " ++ quo item.text ++ " to keep the British tone."
  match item.spoken with
  | some s =>
    if s == "" then base
    else base ++ " It sounded closer to the American " ++ quo s ++ "."
  | none => base

/-- One iteration of the per-item loop of _apply_accent_rules; accentTarget arrives
    already lowercased. In-place mutation of the item is modelled by returning the
    updated item; item.confidence or 0.0 is modelled by getD 0. -/
def accentRuleStep (accentTarget : String) (item : WordFeedback) : WordFeedback :=
  let stripped := stripPunct item.text
  if stripped == "" || item.spoken == none then item
  else
    let confidence : ℚ := item.confidence.getD 0
    if accentTarget == "american" then
      let item1 :=
        if endsInR stripped || ACCENT_R_SENSITIVE.contains stripped then
          if item.status == "ok" && confidence < 92 / 100 then
            ⟨item.text, "accent_mismatch", some (americanSoftRNoteOk item),
              item.spoken, item.confidence, some "american_soft_r"⟩
          else if item.status == "bad" && item.issue_code == some "low_confidence" then
            ⟨item.text, "accent_mismatch", some (americanSoftRNoteBad item),
              item.spoken, item.confidence, some "american_soft_r"⟩
          else item
        else item
      if BRITISH_BROAD_A.contains stripped && item1.status == "ok" && confidence < 9 / 10 then
        ⟨item1.text, "accent_mismatch",
          some ("Give " ++ quo item1.text ++ " the flatter American vowel. Avoid the rounded British "
            ++ quo "a" ++ " sound."),
          item1.spoken, item1.confidence, some "american_broad_a"⟩
      else item1
    else if accentTarget == "british" then
      if BRITISH_FLAP_WORDS.contains stripped && 88 / 100 < confidence then
        ⟨item.text, "accent_mismatch",
          some ("Snap the /t/ in " ++ quo item.text
            ++ " for British English instead of using an American flap."),
          item.spoken, item.confidence, some "british_flap_t"⟩
      else if (endsInR stripped || ACCENT_R_SENSITIVE.contains stripped) && 9 / 10 < confidence then
        ⟨item.text, "accent_mismatch", some (britishRNote item),
          item.spoken, item.confidence, some "british_r"⟩
      else item
    else item

/-- _apply_accent_rules: lowercase the target once, then update every item. -/
def applyAccentRules (feedback : List WordFeedback) (accent_target : String) :
    List WordFeedback :=
  feedback.map (accentRuleStep (lowerStr accent_target))

/-- evaluate_attempt(expected_text, recognised, accent_target) -> (feedback, score). -/
def evaluate_attempt (expected_text : String) (recognised : List RecognisedWord)
    (accent_target : String) : List WordFeedback × ℚ :=
  let expected_tokens := tokenise expected_text
  let accent_label := capitalize accent_target
  let feedback := applyAccentRules (alignLoop accent_label expected_tokens recognised)
    accent_target
  let ok_count : ℕ := feedback.countP (fun item => item.status == "ok")
  let total : ℕ := feedback.countP (fun item => !(stripPunct item.text == ""))
  let score : ℚ := if total == 0 then 0 else round2 ((ok_count : ℚ) / (total : ℚ) * 100)
  (feedback, score)

/-- build_tip: the first accent_mismatch item wins, else the first bad item keyed by
    its issue_code, else a generic encouragement keyed by the accent target. -/
def build_tip (feedback : List WordFeedback) (accent_target : String) : String :=
  let t := lowerStr accent_target
  match feedback.find? (fun item => item.status == "accent_mismatch") with
  | some word =>
    if t == "american" then
      "Focus on the American pronunciation of \"" ++ word.text
        ++ "\" — hold the R sound clearly."
    else
      "Try softening the consonants in \"" ++ word.text
        ++ "\" to lean into the British tone."
  | none =>
    match feedback.find? (fun item => item.status == "bad") with
    | some word =>
      if word.issue_code == some "low_confidence" then
        "Articulate \"" ++ word.text ++ "\" a bit more clearly for the microphone."
      else if word.issue_code == some "word_missing" then
        "Don\x27t forget to include \"" ++ word.text ++ "\" when you read the prompt."
      else
        "Double-check the wording around \"" ++ word.text ++ "\" next time."
    | none =>
      if t == "american" then "Great job! Keep building that crisp American rhythm."
      else "Sounding polished — keep refining those British vowel shapes."

/-! Embedding of count_filler_words from src/backend/routers/sessions.py. -/

/-- Characters matched by the regex class [a-zA-Z\x27] of the filler tokenizer. -/
def isFillerChar (c : Char) : Bool := c.isAlpha || c == Char.ofNat 39

/-- re.findall over a character list: the maximal runs of filler characters. -/
def findallRuns : List Char → List Char → List String
  | [], acc => if acc.isEmpty then [] else [String.mk acc.reverse]
  | c :: rest, acc =>
    if isFillerChar c then findallRuns rest (c :: acc)
    else if acc.isEmpty then findallRuns rest []
    else String.mk acc.reverse :: findallRuns rest []

/-- re.findall(r"[a-zA-Z\x27]+", transcript.lower()). -/
def fillerTokens (transcript : String) : List String :=
  findallRuns (transcript.toList.map Char.toLower) []

def FILLER_PHRASES : List (List String) :=
  [["um"], ["uh"], ["erm"], ["hmm"], ["like"], ["so"], ["actually"], ["basically"],
    ["literally"], ["you", "know"], ["i", "mean"], ["kind", "of"], ["sort", "of"]]

/-- The inner loop: the number of indices idx of range(len(tokens) - size + 1) with
    tokens[idx : idx + size] == phrase. The Python range clamps a negative bound to
    empty, which truncated ℕ subtraction of (len + 1) - size reproduces exactly. -/
def countOcc (tokens phrase : List String) : ℕ :=
  (List.range (tokens.length + 1 - phrase.length)).countP
    (fun idx => (tokens.drop idx).take phrase.length == phrase)

/-- count_filler_words(transcript): 0 for a missing or empty transcript, else the sum
    over FILLER_PHRASES of the occurrence counts in the token stream. -/
def count_filler_words (transcript : Option String) : ℕ :=
  match transcript with
  | none => 0
  | some t =>
    if t == "" then 0
    else
      let tokens := fillerTokens t
      FILLER_PHRASES.foldl
        (fun total phrase =>
          if phrase.length == 0 then total else total + countOcc tokens phrase) 0

/-! Embedding of SessionManager (src/backend/services/session_manager.py) and of the
finalize route (src/backend/routers/sessions.py). The database is a list of session
rows; the filesystem is reduced to the facts the lifecycle touches: which sessions
still have an ephemeral working directory (buffers), which WAVs were moved into the
local archive, and which object keys were uploaded to storage. Times are rationals
measured in hours. -/

structure SessionRow where
  session_id : String
  user_id : Option ℕ
  is_guest : Bool
  created_at : ℚ
  final_transcript : Option String
  audio_path : Option String
  duration_seconds : Option ℤ
  filler_word_count : Option ℕ
deriving Repr, DecidableEq

structure SysState where
  db : List SessionRow
  buffers : List String
  archive : List String
  stored : List String
deriving Repr, DecidableEq

/-- db.execute(select(Session).where(Session.session_id == sid)).scalar_one_or_none(). -/
def findRow (db : List SessionRow) (session_id : String) : Option SessionRow :=
  db.find? (fun r => r.session_id == session_id)

/-- db.delete(row): the session_id column carries a unique constraint (models.py),
    so deleting the found row removes every row with that id. -/
def dbDelete (db : List SessionRow) (session_id : String) : List SessionRow :=
  db.filter (fun r => !(r.session_id == session_id))

/-- ORM field mutation of the found row followed by commit. -/
def dbUpdate (db : List SessionRow) (newRow : SessionRow) : List SessionRow :=
  db.map (fun r => if r.session_id == newRow.session_id then newRow else r)

/-- shutil.rmtree of the session working directory. -/
def removeBuffer (buffers : List String) (session_id : String) : List String :=
  buffers.filter (fun b => !(b == session_id))

/-- The storage collaborator: is_configured() plus the outcome of upload_audio for a
    given object key (.error carries a StorageError message). -/
structure StorageEnv where
  configured : Bool
  upload : String → Except String String

/-- SessionManager._build_storage_key. -/
def buildStorageKey (user_id : Option ℕ) (session_id : String) : String :=
  (match user_id with | some u => toString u | none => "guests") ++ "/"
    ++ session_id ++ ".wav"

/-- The local-fallback archive destination (archive_root / owner / sid.wav). -/
def archiveDest (user_id : Option ℕ) (session_id : String) : String :=
  "recordings/" ++ (match user_id with | some u => toString u | none => "guests")
    ++ "/" ++ session_id ++ ".wav"

/-- SessionManager.finalize_and_persist. A raised StorageError (or other upload
    exception) is the .error result; db.rollback() leaves the committed rows as they
    were, and the finally-block removal of the working directory happens on every
    path through the non-guest branch. -/
def finalize_and_persist (env : StorageEnv) (st : SysState) (session_id : String)
    (transcript_text : String) (wav_path : String) (duration_seconds : Option ℤ)
    (filler_word_count : Option ℕ) : Except String Unit × SysState :=
  match findRow st.db session_id with
  | none =>
    (.ok (), ⟨st.db, removeBuffer st.buffers session_id, st.archive, st.stored⟩)
  | some row =>
    if row.is_guest then
      (.ok (), ⟨dbDelete st.db session_id, removeBuffer st.buffers session_id,
        st.archive, st.stored⟩)
    else
      let row1 : SessionRow :=
        ⟨row.session_id, row.user_id, row.is_guest, row.created_at,
          (if transcript_text == "" then none else some transcript_text),
          row.audio_path, duration_seconds, filler_word_count⟩
      if env.configured then
        match env.upload (buildStorageKey row.user_id session_id) with
        | .ok stored_key =>
          let row2 : SessionRow :=
            ⟨row1.session_id, row1.user_id, row1.is_guest, row1.created_at,
              row1.final_transcript, some stored_key, row1.duration_seconds,
              row1.filler_word_count⟩
          (.ok (), ⟨dbUpdate st.db row2, removeBuffer st.buffers session_id,
            st.archive, stored_key :: st.stored⟩)
        | .error e =>
          (.error e, ⟨st.db, removeBuffer st.buffers session_id, st.archive, st.stored⟩)
      else
        let dest := archiveDest row.user_id session_id
        let row2 : SessionRow :=
          ⟨row1.session_id, row1.user_id, row1.is_guest, row1.created_at,
            row1.final_transcript, some dest, row1.duration_seconds,
            row1.filler_word_count⟩
        (.ok (), ⟨dbUpdate st.db row2, removeBuffer st.buffers session_id,
          dest :: st.archive, st.stored⟩)

/-- The selection predicate of cleanup_expired_sessions. -/
def expiredGuest (cutoff : ℚ) (r : SessionRow) : Bool :=
  r.is_guest && decide (r.created_at < cutoff) && (r.final_transcript == none)

/-- SessionManager.cleanup_expired_sessions: delete the rows and working
    directories of expired, never-finalized guest sessions. -/
def cleanup_expired_sessions (st : SysState) (now : ℚ) (max_age_hours : ℚ) : SysState :=
  let cutoff := now - max_age_hours
  ⟨st.db.filter (fun r => !(expiredGuest cutoff r)),
   st.buffers.filter
     (fun b => !(st.db.any (fun r => expiredGuest cutoff r && r.session_id == b))),
   st.archive, st.stored⟩

structure HTTPError where
  status : ℕ
  detail : String
deriving Repr, DecidableEq

structure FinalizeResponse where
  final : String
  filler_word_count : ℕ
  audio_url : Option String
deriving Repr, DecidableEq

/-- Environment of the finalize route: the storage collaborator, the ffmpeg exit
    (stderr text on failure), the ffprobe duration (none when probing failed), and
    the transcription outcome. -/
structure FinalizeEnv where
  storage : StorageEnv
  transcode : Except String Unit
  probe : Option ℤ
  transcribe : Except String String

def wavPath (session_id : String) : String :=
  "live_sessions/" ++ session_id ++ "/session.wav"

/-- finalize_session route: webm-existence check, transcode, best-effort probe,
    transcription, filler count, persist-or-purge, then the response payload with
    the audio URL looked up from the post-persist row. -/
def finalize_session (env : FinalizeEnv) (st : SysState) (session_id : String) :
    Except HTTPError FinalizeResponse × SysState :=
  if st.buffers.contains session_id then
    match env.transcode with
    | .error err => (.error ⟨500, "FFmpeg error: " ++ err⟩, st)
    | .ok _ =>
      let duration_seconds := env.probe
      match env.transcribe with
      | .error e => (.error ⟨500, "Transcription error: " ++ e⟩, st)
      | .ok transcript =>
        let fwc := count_filler_words (some transcript)
        match finalize_and_persist env.storage st session_id transcript
            (wavPath session_id) duration_seconds (some fwc) with
        | (.error e, st1) => (.error ⟨500, e⟩, st1)
        | (.ok _, st1) =>
          let audio_url : Option String :=
            match findRow st1.db session_id with
            | some row =>
              match row.audio_path with
              | some _ => some ("/session/" ++ session_id ++ "/audio")
              | none => none
            | none => none
          (.ok ⟨transcript, fwc, audio_url⟩, st1)
  else (.error ⟨404, "Audio file not found."⟩, st)

/-! Embedding of the accent training route (src/backend/routers/accent.py). -/

structure PracticeAttemptRow where
  attempt_id : String
  user_id : Option ℕ
  accent_target : String
  expected_text : String
  audio_path : String
  transcript_raw : String
  feedback : List WordFeedback
  overall_score : ℚ
deriving Repr, DecidableEq

structure TrainState where
  attempts : List PracticeAttemptRow
  stored : List String
deriving Repr, DecidableEq

structure TrainResponse where
  attemptId : String
  score : ℚ
  words : List WordFeedback
  tips : String
  transcript : String
deriving Repr, DecidableEq

/-- Environment of the train route: storage.store_bytes outcome (stored path) and
    transcribe_with_words outcome (text plus (word, confidence) entries). -/
structure TrainEnv where
  storeBytes : Except String String
  transcribe : Except String (String × List (String × ℚ))

/-- train_accent route. db_user_id is the already-resolved authenticated or legacy
    user id; audio_bytes is the uploaded payload (only emptiness matters). -/
def train_accent (env : TrainEnv) (st : TrainState) (text accent : String)
    (db_user_id : Option ℕ) (audio_bytes : List ℕ) (attempt_uuid : String) :
    Except HTTPError TrainResponse × TrainState :=
  if audio_bytes.isEmpty then (.error ⟨400, "Empty audio upload"⟩, st)
  else
    match env.storeBytes with
    | .error e => (.error ⟨502, e⟩, st)
    | .ok stored_audio_path =>
      match env.transcribe with
      | .error e => (.error ⟨502, e⟩, ⟨st.attempts, stored_audio_path :: st.stored⟩)
      | .ok (transcript_text, word_entries) =>
        let recognised := (word_entries.filter (fun entry => !(entry.1 == ""))).map
          (fun entry => RecognisedWord.mk entry.1 entry.2)
        let result := evaluate_attempt text recognised accent
        let tips := build_tip result.1 accent
        let attempt : PracticeAttemptRow :=
          ⟨attempt_uuid, db_user_id, accent, text, stored_audio_path, transcript_text,
            result.1, result.2⟩
        (.ok ⟨attempt_uuid, result.2, result.1, tips, transcript_text⟩,
         ⟨st.attempts ++ [attempt], stored_audio_path :: st.stored⟩)

/-! Reference definitions written from the specification wording (section 4.1 step 5),
to be compared with the count_filler_words embedding. -/

/-- From the spec: the phrase occurs contiguously in the token stream at
    position idx — every element of the phrase stands at the matching position. -/
def occursAt (tokens phrase : List String) (idx : ℕ) : Prop :=
  ∀ j, j < phrase.length → tokens.get? (idx + j) = phrase.get? j

instance (tokens phrase : List String) (idx : ℕ) : Decidable (occursAt tokens phrase idx) :=
  Nat.decidableBallLT phrase.length (fun j _ => tokens.get? (idx + j) = phrase.get? j)

/-- From the spec: the number of contiguous occurrences of the phrase in the
    token stream. -/
def specOccCount (tokens phrase : List String) : ℕ :=
  (List.range (tokens.length + 1)).countP (fun idx => decide (occursAt tokens phrase idx))

/-- From the spec: tokenize the transcript on word boundaries and lowercase it,
    then sum, across the fixed ordered set of filler phrases, the number of
    contiguous occurrences of each phrase; a missing transcript yields 0. -/
def fillerReferenceCount (transcript : Option String) : ℕ :=
  match transcript with
  | none => 0
  | some t => (FILLER_PHRASES.map (fun phrase => specOccCount (fillerTokens t) phrase)).sum

/-! General lemmas about the scoring engine. -/

theorem compareFeedback_text (lbl e : String) (w : RecognisedWord) :
    (compareFeedback lbl e w).text = e := by
  unfold compareFeedback
  split
  · split <;> rfl
  · rfl

theorem alignLoop_cons (lbl e : String) (rest : List String) (ws : List RecognisedWord) :
    alignLoop lbl (e :: rest) ws =
      if stripPunct e == "" then punctFeedback e :: alignLoop lbl rest ws
      else
        match ws with
        | [] => missingFeedback lbl e :: alignLoop lbl rest []
        | s :: remaining => compareFeedback lbl e s :: alignLoop lbl rest remaining := rfl

theorem alignLoop_cons_punct (lbl e : String) (rest : List String)
    (ws : List RecognisedWord) (hp : stripPunct e = "") :
    alignLoop lbl (e :: rest) ws = punctFeedback e :: alignLoop lbl rest ws := by
  rw [alignLoop_cons, if_pos (by simp [hp])]

theorem alignLoop_cons_missing (lbl e : String) (rest : List String)
    (hp : ¬ stripPunct e = "") :
    alignLoop lbl (e :: rest) [] = missingFeedback lbl e :: alignLoop lbl rest [] := by
  rw [alignLoop_cons, if_neg (by simp [hp])]

theorem alignLoop_cons_compare (lbl e : String) (rest : List String) (w : RecognisedWord)
    (ws : List RecognisedWord) (hp : ¬ stripPunct e = "") :
    alignLoop lbl (e :: rest) (w :: ws)
      = compareFeedback lbl e w :: alignLoop lbl rest ws := by
  rw [alignLoop_cons, if_neg (by simp [hp])]

theorem accentRuleStep_text (t : String) (item : WordFeedback) :
    (accentRuleStep t item).text = item.text := by
  simp only [accentRuleStep]
  repeat' split
  all_goals rfl

theorem alignLoop_map_text (lbl : String) (es : List String) :
    ∀ ws : List RecognisedWord,
      (alignLoop lbl es ws).map (fun item => item.text) = es := by
  induction es with
  | nil => intro ws; rfl
  | cons e rest ih =>
    intro ws
    unfold alignLoop
    split
    · simp [punctFeedback, ih ws]
    · cases ws with
      | nil => simp [missingFeedback, ih []]
      | cons w ws2 => simp [compareFeedback_text, ih ws2]

theorem alignLoop_length (lbl : String) (es : List String) (ws : List RecognisedWord) :
    (alignLoop lbl es ws).length = es.length := by
  have h := congrArg List.length (alignLoop_map_text lbl es ws)
  simpa using h

theorem applyAccentRules_map_text (fb : List WordFeedback) (t : String) :
    (applyAccentRules fb t).map (fun item => item.text)
      = fb.map (fun item => item.text) := by
  unfold applyAccentRules
  rw [List.map_map]
  exact List.map_congr_left (fun a _ => by simp [Function.comp, accentRuleStep_text])

theorem evaluate_feedback_eq (expected_text : String) (recognised : List RecognisedWord)
    (accent_target : String) :
    (evaluate_attempt expected_text recognised accent_target).1
      = applyAccentRules
          (alignLoop (capitalize accent_target) (tokenise expected_text) recognised)
          accent_target := rfl

theorem alignLoop_get?_punct (lbl : String) (es : List String) :
    ∀ (ws : List RecognisedWord) (i : ℕ) (tok : String),
      es.get? i = some tok → stripPunct tok = "" →
      (alignLoop lbl es ws).get? i = some (punctFeedback tok) := by
  induction es with
  | nil => intro ws i tok h _; simp at h
  | cons e rest ih =>
    intro ws i tok h hp
    unfold alignLoop
    cases i with
    | zero =>
      simp only [List.get?] at h
      injection h with h
      subst h
      rw [if_pos (by simp [hp])]
      rfl
    | succ n =>
      simp only [List.get?] at h
      split
      · exact ih ws n tok h hp
      · cases ws with
        | nil => exact ih [] n tok h hp
        | cons w ws2 => exact ih ws2 n tok h hp

theorem accentRuleStep_punct (t : String) (tok : String) (hp : stripPunct tok = "") :
    accentRuleStep t (punctFeedback tok) = punctFeedback tok := by
  simp [accentRuleStep, punctFeedback, hp]

/-- C5: for every expectedText and recognizedWords list, the feedback list has one
    entry per whitespace-delimited token of expectedText; a pure-punctuation token
    (empty stripped form) yields the fixed ok item with no confidence and no spoken
    word, and the alignment walk hands the recognized-word cursor over such a token
    unchanged (it consumes no recognized word). -/
theorem c5_feedback_shape (expected_text : String) (recognised : List RecognisedWord)
    (accent_target : String) :
    ((evaluate_attempt expected_text recognised accent_target).1.length
        = (tokenise expected_text).length)
    ∧ (∀ (i : ℕ) (tok : String), (tokenise expected_text).get? i = some tok →
        stripPunct tok = "" →
        (evaluate_attempt expected_text recognised accent_target).1.get? i
          = some (punctFeedback tok))
    ∧ (∀ (lbl tok : String) (rest : List String) (ws : List RecognisedWord),
        stripPunct tok = "" →
        alignLoop lbl (tok :: rest) ws = punctFeedback tok :: alignLoop lbl rest ws) := by
  refine ⟨?_, ?_, ?_⟩
  · rw [evaluate_feedback_eq]
    unfold applyAccentRules
    rw [List.length_map, alignLoop_length]
  · intro i tok h hp
    rw [evaluate_feedback_eq]
    unfold applyAccentRules
    rw [List.get?_eq_getElem?, List.getElem?_map, ← List.get?_eq_getElem?,
      alignLoop_get?_punct _ _ recognised i tok h hp]
    simp [accentRuleStep_punct _ _ hp]
  · intro lbl tok rest ws hp
    exact alignLoop_cons_punct lbl tok rest ws hp

/-- Closed instance of C5 at a concrete input with a punctuation token. -/
theorem c5_feedback_shape_witness :
    ((evaluate_attempt "hello !" [⟨"hello", 9/10⟩] "american").1.length
        = (tokenise "hello !").length)
    ∧ ((evaluate_attempt "hello !" [⟨"hello", 9/10⟩] "american").1.get? 1
        = some (punctFeedback "!")) :=
  ⟨(c5_feedback_shape "hello !" [⟨"hello", 9/10⟩] "american").1,
    (c5_feedback_shape "hello !" [⟨"hello", 9/10⟩] "american").2.1 1 "!" (by decide)
      (by decide)⟩

theorem alignLoop_take_nonpunct (lbl : String) (es : List String) :
    ∀ ws : List RecognisedWord,
      alignLoop lbl es (ws.take (es.countP (fun tok => !(stripPunct tok == ""))))
        = alignLoop lbl es ws := by
  induction es with
  | nil => intro ws; rfl
  | cons e rest ih =>
    intro ws
    by_cases hp : stripPunct e = ""
    · have hk : (e :: rest).countP (fun tok => !(stripPunct tok == ""))
          = rest.countP (fun tok => !(stripPunct tok == "")) := by
        rw [List.countP_cons]
        simp [hp]
      rw [hk, alignLoop_cons_punct lbl e rest _ hp, alignLoop_cons_punct lbl e rest ws hp,
        ih ws]
    · have hk : (e :: rest).countP (fun tok => !(stripPunct tok == ""))
          = rest.countP (fun tok => !(stripPunct tok == "")) + 1 := by
        rw [List.countP_cons]
        simp [hp]
      cases ws with
      | nil => rw [hk, List.take_nil]
      | cons w ws2 =>
        rw [hk, List.take_succ_cons, alignLoop_cons_compare lbl e rest w _ hp,
          alignLoop_cons_compare lbl e rest w ws2 hp, ih ws2]

/-- C10: evaluate_attempt never reads recognized words beyond the number k of
    expected tokens with non-empty stripped form — truncating the recognized list
    to its first k elements changes neither the feedback nor the score. -/
theorem c10_trailing_recognised_ignored (expected_text : String)
    (ws : List RecognisedWord) (accent_target : String) :
    evaluate_attempt expected_text
        (ws.take ((tokenise expected_text).countP (fun tok => !(stripPunct tok == ""))))
        accent_target
      = evaluate_attempt expected_text ws accent_target := by
  simp only [evaluate_attempt]
  rw [alignLoop_take_nonpunct]

theorem roundHalfEven_nonneg (q : ℚ) (h : 0 ≤ q) : 0 ≤ roundHalfEven q := by
  have hf : (0:ℤ) ≤ ⌊q⌋ := Int.floor_nonneg.mpr h
  simp only [roundHalfEven]
  split
  · exact hf
  split
  · omega
  split
  · exact hf
  · omega

theorem roundHalfEven_le (q : ℚ) (n : ℤ) (h : q ≤ (n:ℚ)) : roundHalfEven q ≤ n := by
  have hfn : ⌊q⌋ ≤ n := by
    have h2 := Int.floor_le_floor h
    rwa [Int.floor_intCast] at h2
  have hsucc : (1:ℚ)/2 ≤ q - (⌊q⌋:ℚ) → ⌊q⌋ + 1 ≤ n := by
    intro hr
    have h1 : ((⌊q⌋:ℤ):ℚ) < (n:ℚ) := by linarith
    have h3 : ⌊q⌋ < n := by exact_mod_cast h1
    omega
  simp only [roundHalfEven]
  split
  · exact hfn
  next hr1 =>
    split
    · next hr2 => exact hsucc (le_of_lt hr2)
    · split
      · exact hfn
      · exact hsucc (not_lt.mp hr1)

theorem evaluate_score_eq (expected_text : String) (recognised : List RecognisedWord)
    (accent_target : String) :
    (evaluate_attempt expected_text recognised accent_target).2 =
      (let fb := (evaluate_attempt expected_text recognised accent_target).1
       let ok_count : ℕ := fb.countP (fun item => item.status == "ok")
       let total : ℕ := fb.countP (fun item => !(stripPunct item.text == ""))
       if total == 0 then (0:ℚ) else round2 ((ok_count : ℚ) / (total : ℚ) * 100)) := rfl

/-- C1 (amended): the score is nonnegative and always a two-decimal value, and it
    is at most 100 whenever every expected token has a non-empty stripped form;
    pure-punctuation tokens are counted as ok but excluded from the divisor, which
    can push the score past 100 (see the counterexample). -/
theorem c1_score_range (expected_text : String) (recognised : List RecognisedWord)
    (accent_target : String) :
    (0 ≤ (evaluate_attempt expected_text recognised accent_target).2)
    ∧ (∃ n : ℤ, (evaluate_attempt expected_text recognised accent_target).2 = (n : ℚ) / 100)
    ∧ ((∀ tok ∈ tokenise expected_text, ¬ stripPunct tok = "") →
        (evaluate_attempt expected_text recognised accent_target).2 ≤ 100) := by
  have hscore := evaluate_score_eq expected_text recognised accent_target
  simp only at hscore
  set fb := (evaluate_attempt expected_text recognised accent_target).1 with hfb
  set ok_count : ℕ := fb.countP (fun item => item.status == "ok") with hok
  set total : ℕ := fb.countP (fun item => !(stripPunct item.text == "")) with htotal
  by_cases h0 : total = 0
  · rw [hscore, if_pos (by simp [h0])]
    refine ⟨le_refl 0, ⟨0, by norm_num⟩, fun _ => by norm_num⟩
  · rw [hscore, if_neg (by simp [h0])]
    have htpos : 0 < total := Nat.pos_of_ne_zero h0
    have htposq : (0:ℚ) < (total:ℚ) := by exact_mod_cast htpos
    have hxnn : (0:ℚ) ≤ (ok_count:ℚ) / (total:ℚ) * 100 := by positivity
    refine ⟨?_, ⟨roundHalfEven ((ok_count:ℚ) / (total:ℚ) * 100 * 100), rfl⟩, ?_⟩
    · have h1 : (0:ℤ) ≤ roundHalfEven ((ok_count:ℚ) / (total:ℚ) * 100 * 100) :=
        roundHalfEven_nonneg _ (by positivity)
      have h2 : ((0:ℤ):ℚ) ≤ ((roundHalfEven ((ok_count:ℚ) / (total:ℚ) * 100 * 100) : ℤ):ℚ) := by
        exact_mod_cast h1
      simp only [round2]
      positivity
    · intro hall
      have htext : fb.map (fun item => item.text) = tokenise expected_text := by
        rw [hfb, evaluate_feedback_eq, applyAccentRules_map_text, alignLoop_map_text]
      have htotal_len : total = fb.length := by
        rw [htotal]
        apply List.countP_eq_length.mpr
        intro item hmem
        have : item.text ∈ tokenise expected_text := by
          rw [← htext]
          exact List.mem_map_of_mem _ hmem
        simp [hall item.text this]
      have hokle : ok_count ≤ total := by
        rw [htotal_len, hok]
        exact List.countP_le_length _
      have hxle : (ok_count:ℚ) / (total:ℚ) * 100 ≤ 100 := by
        have h1 : (ok_count:ℚ) / (total:ℚ) ≤ 1 :=
          (div_le_one htposq).mpr (by exact_mod_cast hokle)
        nlinarith
      have h2 : roundHalfEven ((ok_count:ℚ) / (total:ℚ) * 100 * 100) ≤ (10000:ℤ) := by
        apply roundHalfEven_le
        push_cast
        nlinarith
      have h3 : ((roundHalfEven ((ok_count:ℚ) / (total:ℚ) * 100 * 100) : ℤ):ℚ) ≤ 10000 := by
        exact_mod_cast h2
      simp only [round2]
      linarith

/-- Closed instance of C1 (amended) at a punctuation-free expected text. -/
theorem c1_score_range_witness :
    (0 ≤ (evaluate_attempt "hello world" [⟨"hello", 99/100⟩, ⟨"world", 99/100⟩] "american").2)
    ∧ ((evaluate_attempt "hello world" [⟨"hello", 99/100⟩, ⟨"world", 99/100⟩] "american").2
        ≤ 100) :=
  ⟨(c1_score_range "hello world" [⟨"hello", 99/100⟩, ⟨"world", 99/100⟩] "american").1,
    (c1_score_range "hello world" [⟨"hello", 99/100⟩, ⟨"world", 99/100⟩] "american").2.2
      (by decide)⟩

/-- Counterexample to C1 as stated: with a pure-punctuation expected token the
    returned score exceeds 100 — expected "! hi" with recognized [("hi", 0.99)]
    scores 200 under any accent target. -/
theorem c1_score_counterexample :
    (evaluate_attempt "! hi" [⟨"hi", 99/100⟩] "american").2 = 200
    ∧ ¬ (evaluate_attempt "! hi" [⟨"hi", 99/100⟩] "american").2 ≤ 100 := by
  constructor <;> decide

theorem compareFeedback_ok_eq (lbl e : String) (w : RecognisedWord)
    (h : (compareFeedback lbl e w).status = "ok") :
    compareFeedback lbl e w = ⟨e, "ok", none, some w.word, some w.confidence, none⟩ := by
  unfold compareFeedback at h ⊢
  split at h
  · rename_i h1
    split at h
    · rename_i h2
      rw [if_pos h1, if_pos h2]
    · simp at h
  · simp at h

theorem alignLoop_ok_spoken (lbl : String) (es : List String) :
    ∀ (ws : List RecognisedWord) (item : WordFeedback),
      item ∈ alignLoop lbl es ws → item.status = "ok" → ¬ stripPunct item.text = "" →
      item.spoken ≠ none := by
  induction es with
  | nil => intro ws item h; simp [alignLoop] at h
  | cons e rest ih =>
    intro ws item hmem hok hp
    by_cases hpe : stripPunct e = ""
    · rw [alignLoop_cons_punct lbl e rest ws hpe] at hmem
      rcases List.mem_cons.mp hmem with heq | htail
      · subst heq
        exact absurd hpe hp
      · exact ih ws item htail hok hp
    · cases ws with
      | nil =>
        rw [alignLoop_cons_missing lbl e rest hpe] at hmem
        rcases List.mem_cons.mp hmem with heq | htail
        · subst heq
          simp [missingFeedback] at hok
        · exact ih [] item htail hok hp
      | cons w ws2 =>
        rw [alignLoop_cons_compare lbl e rest w ws2 hpe] at hmem
        rcases List.mem_cons.mp hmem with heq | htail
        · subst heq
          rw [compareFeedback_ok_eq lbl e w hok]
          simp
        · exact ih ws2 item htail hok hp

theorem rhotic_stripped_ne_empty (s : String)
    (h : endsInR s = true ∨ ACCENT_R_SENSITIVE.contains s = true) : ¬ s = "" := by
  rcases h with h | h
  · intro he
    rw [he] at h
    exact absurd h (by decide)
  · intro he
    rw [he] at h
    exact absurd h (by decide)

theorem accentRuleStep_american_rhotic (item : WordFeedback) (c : ℚ)
    (hsp : item.spoken ≠ none)
    (hlex : endsInR (stripPunct item.text) = true
      ∨ ACCENT_R_SENSITIVE.contains (stripPunct item.text) = true)
    (hok : item.status = "ok")
    (hconf : item.confidence = some c)
    (hc : c < 92 / 100) :
    (accentRuleStep "american" item).status = "accent_mismatch" := by
  have hs : ¬ stripPunct item.text = "" := rhotic_stripped_ne_empty _ hlex
  have hcond1 : (stripPunct item.text == "" || item.spoken == none) = false := by
    cases hspk : item.spoken with
    | none => exact absurd hspk hsp
    | some s => simp [hs]
  have hcond2 : (endsInR (stripPunct item.text)
      || ACCENT_R_SENSITIVE.contains (stripPunct item.text)) = true := by
    rw [Bool.or_eq_true]
    exact hlex
  have hcond3 : (item.status == "ok" && decide ((item.confidence.getD 0) < 92 / 100))
      = true := by
    rw [hconf, hok]
    simp [hc]
  simp only [accentRuleStep, hcond1, hcond2, hcond3, Bool.false_eq_true, if_false,
    if_true, Bool.true_eq_false]
  split
  · split <;> rfl
  · rename_i hfalse
    simp at hfalse

/-- C6: under accentTarget = american, an alignment item whose stripped form ends in
    r or belongs to the rhotic-sensitive lexicon, with status ok and confidence
    below 0.92, is reclassified accent_mismatch in the returned feedback. -/
theorem c6_american_rhotic_reclassified (expected_text : String)
    (ws : List RecognisedWord) (i : ℕ) (item : WordFeedback) (c : ℚ)
    (hitem : (alignLoop (capitalize "american") (tokenise expected_text) ws).get? i
      = some item)
    (hlex : endsInR (stripPunct item.text) = true
      ∨ ACCENT_R_SENSITIVE.contains (stripPunct item.text) = true)
    (hok : item.status = "ok")
    (hconf : item.confidence = some c)
    (hc : c < 92 / 100) :
    ((evaluate_attempt expected_text ws "american").1.get? i).map (fun it => it.status)
      = some "accent_mismatch" := by
  have hmem : item ∈ alignLoop (capitalize "american") (tokenise expected_text) ws :=
    List.get?_mem hitem
  have hsp : item.spoken ≠ none :=
    alignLoop_ok_spoken _ _ ws item hmem hok (rhotic_stripped_ne_empty _ hlex)
  rw [evaluate_feedback_eq]
  unfold applyAccentRules
  rw [List.get?_eq_getElem?, List.getElem?_map, ← List.get?_eq_getElem?, hitem]
  have hlower : lowerStr "american" = "american" := by decide
  simp only [Option.map_some, Option.map]
  rw [hlower, accentRuleStep_american_rhotic item c hsp hlex hok hconf hc]

/-- Closed instance of C6: Scenario B — expected "car", recognized [("car", 0.90)],
    target american gives accent_mismatch and score 0.00. -/
theorem c6_american_rhotic_reclassified_witness :
    (((evaluate_attempt "car" [⟨"car", 9/10⟩] "american").1.get? 0).map
        (fun it => it.status) = some "accent_mismatch")
    ∧ (evaluate_attempt "car" [⟨"car", 9/10⟩] "american").2 = 0 :=
  ⟨c6_american_rhotic_reclassified "car" [⟨"car", 9/10⟩] 0
      ⟨"car", "ok", none, some "car", some (9/10), none⟩ (9/10)
      (by decide) (Or.inl (by decide)) rfl rfl (by decide),
    by decide⟩

/-! Lemmas and claims about the session lifecycle. -/

theorem findRow_dbDelete (db : List SessionRow) (sid : String) :
    findRow (dbDelete db sid) sid = none := by
  unfold findRow dbDelete
  rw [List.find?_eq_none]
  intro r hr
  rw [List.mem_filter] at hr
  rcases hr with ⟨_, hne⟩
  simp at hne ⊢
  exact hne

theorem not_mem_removeBuffer (buffers : List String) (sid : String) :
    ¬ sid ∈ removeBuffer buffers sid := by
  unfold removeBuffer
  intro hmem
  rw [List.mem_filter] at hmem
  simp at hmem

/-- C2: when the storage upload raises during a non-guest finalize, the error is
    re-raised to the caller and the database rollback leaves every committed row —
    in particular finalTranscript, audioLocation, durationSeconds and
    fillerWordCount of the session row — exactly as before the call. -/
theorem c2_storage_failure_rollback (env : StorageEnv) (st : SysState)
    (session_id transcript_text wav_path : String) (duration_seconds : Option ℤ)
    (filler_word_count : Option ℕ) (row : SessionRow) (e : String)
    (hrow : findRow st.db session_id = some row)
    (hguest : row.is_guest = false)
    (hconf : env.configured = true)
    (hup : env.upload (buildStorageKey row.user_id session_id) = .error e) :
    ((finalize_and_persist env st session_id transcript_text wav_path duration_seconds
        filler_word_count).1 = .error e)
    ∧ (finalize_and_persist env st session_id transcript_text wav_path duration_seconds
        filler_word_count).2.db = st.db := by
  constructor <;>
    simp only [finalize_and_persist, hrow, hguest, hconf, hup, Bool.false_eq_true,
      if_false, eq_self_iff_true, if_true]

/-- Closed instance of C2 at a concrete non-guest row and failing upload. -/
theorem c2_storage_failure_rollback_witness :
    ((finalize_and_persist ⟨true, fun _ => Except.error "upload failed"⟩
        ⟨[⟨"s1", some 7, false, 0, none, none, none, none⟩], ["s1"], [], []⟩
        "s1" "hello" "live_sessions/s1/session.wav" (some 3) (some 0)).1
      = .error "upload failed")
    ∧ (finalize_and_persist ⟨true, fun _ => Except.error "upload failed"⟩
        ⟨[⟨"s1", some 7, false, 0, none, none, none, none⟩], ["s1"], [], []⟩
        "s1" "hello" "live_sessions/s1/session.wav" (some 3) (some 0)).2.db
      = [⟨"s1", some 7, false, 0, none, none, none, none⟩] :=
  c2_storage_failure_rollback ⟨true, fun _ => Except.error "upload failed"⟩
    ⟨[⟨"s1", some 7, false, 0, none, none, none, none⟩], ["s1"], [], []⟩
    "s1" "hello" "live_sessions/s1/session.wav" (some 3) (some 0)
    ⟨"s1", some 7, false, 0, none, none, none, none⟩ "upload failed"
    (by decide) rfl rfl rfl

/-- Counterexample to C3 as stated: a storage failure is a fatal finalize failure,
    yet the finally-block of finalize_and_persist deletes the working buffer. -/
theorem c3_buffer_counterexample :
    ((finalize_session
        ⟨⟨true, fun _ => Except.error "upload failed"⟩, Except.ok (), some 3,
          Except.ok "hello there"⟩
        ⟨[⟨"s1", some 7, false, 0, none, none, none, none⟩], ["s1"], [], []⟩ "s1").1
      = Except.error ⟨500, "upload failed"⟩)
    ∧ ¬ ("s1" ∈ (finalize_session
        ⟨⟨true, fun _ => Except.error "upload failed"⟩, Except.ok (), some 3,
          Except.ok "hello there"⟩
        ⟨[⟨"s1", some 7, false, 0, none, none, none, none⟩], ["s1"], [], []⟩
        "s1").2.buffers) := by
  exact ⟨rfl, by decide⟩

/-- C3 (amended): on transcode failure and on transcription failure the whole state
    — the working buffer included — is untouched; on storage failure the database is
    rolled back but the working buffer is still deleted by the finally block. -/
theorem c3_buffer_retention (env : FinalizeEnv) (st : SysState) (sid : String) :
    (∀ err : String, st.buffers.contains sid = true → env.transcode = .error err →
      finalize_session env st sid = (.error ⟨500, "FFmpeg error: " ++ err⟩, st))
    ∧ (∀ e : String, st.buffers.contains sid = true → env.transcode = .ok () →
        env.transcribe = .error e →
        finalize_session env st sid = (.error ⟨500, "Transcription error: " ++ e⟩, st))
    ∧ (∀ (row : SessionRow) (e transcript : String),
        st.buffers.contains sid = true → env.transcode = .ok () →
        env.transcribe = .ok transcript →
        findRow st.db sid = some row → row.is_guest = false →
        env.storage.configured = true →
        env.storage.upload (buildStorageKey row.user_id sid) = .error e →
        ((finalize_session env st sid).1 = .error ⟨500, e⟩)
        ∧ (finalize_session env st sid).2.db = st.db
        ∧ (finalize_session env st sid).2.buffers = removeBuffer st.buffers sid) := by
  refine ⟨?_, ?_, ?_⟩
  · intro err hbuf htc
    simp only [finalize_session, hbuf, htc, eq_self_iff_true, if_true]
  · intro e hbuf htc htr
    simp only [finalize_session, hbuf, htc, htr, eq_self_iff_true, if_true]
  · intro row e transcript hbuf htc htr hrow hguest hconf hup
    refine ⟨?_, ?_, ?_⟩ <;>
      simp only [finalize_session, hbuf, htc, htr, eq_self_iff_true, if_true,
        finalize_and_persist, hrow, hguest, Bool.false_eq_true, if_false, hconf, hup]

/-- Closed instance of C3 (amended): transcription failure preserves the state. -/
theorem c3_buffer_retention_witness :
    finalize_session
        ⟨⟨false, fun _ => Except.error "x"⟩, Except.ok (), none,
          Except.error "timeout"⟩
        ⟨[⟨"s1", some 7, false, 0, none, none, none, none⟩], ["s1"], [], []⟩ "s1"
      = (.error ⟨500, "Transcription error: " ++ "timeout"⟩,
          ⟨[⟨"s1", some 7, false, 0, none, none, none, none⟩], ["s1"], [], []⟩) :=
  (c3_buffer_retention
      ⟨⟨false, fun _ => Except.error "x"⟩, Except.ok (), none, Except.error "timeout"⟩
      ⟨[⟨"s1", some 7, false, 0, none, none, none, none⟩], ["s1"], [], []⟩ "s1").2.1
    "timeout" (by decide) rfl rfl

/-- C4: a successful finalize of a guest session deletes the row and the working
    buffer, yet the response still carries the transcript and the filler-word count
    (and no audio URL, since nothing is retained). -/
theorem c4_guest_finalize_purges (env : FinalizeEnv) (st : SysState)
    (sid transcript : String) (row : SessionRow)
    (hbuf : st.buffers.contains sid = true)
    (htc : env.transcode = .ok ())
    (htr : env.transcribe = .ok transcript)
    (hrow : findRow st.db sid = some row)
    (hguest : row.is_guest = true) :
    ((finalize_session env st sid).1
      = .ok ⟨transcript, count_filler_words (some transcript), none⟩)
    ∧ findRow (finalize_session env st sid).2.db sid = none
    ∧ ¬ sid ∈ (finalize_session env st sid).2.buffers := by
  refine ⟨?_, ?_, ?_⟩
  · simp only [finalize_session, hbuf, htc, htr, eq_self_iff_true, if_true,
      finalize_and_persist, hrow, hguest, findRow_dbDelete]
  · simp only [finalize_session, hbuf, htc, htr, eq_self_iff_true, if_true,
      finalize_and_persist, hrow, hguest]
    exact findRow_dbDelete st.db sid
  · simp only [finalize_session, hbuf, htc, htr, eq_self_iff_true, if_true,
      finalize_and_persist, hrow, hguest]
    exact not_mem_removeBuffer st.buffers sid

/-- Closed instance of C4 at a concrete guest session. -/
theorem c4_guest_finalize_purges_witness :
    ((finalize_session
        ⟨⟨false, fun _ => Except.error "x"⟩, Except.ok (), some 2, Except.ok "um hello"⟩
        ⟨[⟨"g1", none, true, 0, none, none, none, none⟩], ["g1"], [], []⟩ "g1").1
      = .ok ⟨"um hello", count_filler_words (some "um hello"), none⟩)
    ∧ findRow (finalize_session
        ⟨⟨false, fun _ => Except.error "x"⟩, Except.ok (), some 2, Except.ok "um hello"⟩
        ⟨[⟨"g1", none, true, 0, none, none, none, none⟩], ["g1"], [], []⟩ "g1").2.db
        "g1" = none
    ∧ ¬ "g1" ∈ (finalize_session
        ⟨⟨false, fun _ => Except.error "x"⟩, Except.ok (), some 2, Except.ok "um hello"⟩
        ⟨[⟨"g1", none, true, 0, none, none, none, none⟩], ["g1"], [], []⟩
        "g1").2.buffers :=
  c4_guest_finalize_purges
    ⟨⟨false, fun _ => Except.error "x"⟩, Except.ok (), some 2, Except.ok "um hello"⟩
    ⟨[⟨"g1", none, true, 0, none, none, none, none⟩], ["g1"], [], []⟩ "g1" "um hello"
    ⟨"g1", none, true, 0, none, none, none, none⟩ (by decide) rfl rfl (by decide) rfl

/-- Counterexample to C7 as stated: a train request with an unknown accent target
    ("australian") is not rejected — the pipeline runs to completion, the audio is
    stored and an attempt row is persisted. -/
theorem c7_unknown_accent_counterexample :
    ((train_accent ⟨Except.ok "att.webm", Except.ok ("test", [("test", 95/100)])⟩
        ⟨[], []⟩ "test" "australian" none [1] "a1").1.toOption.isSome = true)
    ∧ (train_accent ⟨Except.ok "att.webm", Except.ok ("test", [("test", 95/100)])⟩
        ⟨[], []⟩ "test" "australian" none [1] "a1").2.attempts.length = 1
    ∧ (train_accent ⟨Except.ok "att.webm", Except.ok ("test", [("test", 95/100)])⟩
        ⟨[], []⟩ "test" "australian" none [1] "a1").2.stored = ["att.webm"] :=
  ⟨rfl, rfl, rfl⟩

/-- C7 (amended): empty audio is rejected with HTTP 400 before any pipeline work and
    with no state change; an unknown accent target is not validated — the full
    pipeline runs, the attempt row is persisted with that target, and a target that
    is neither american nor british merely disables the accent reclassification. -/
theorem c7_validation :
    (∀ (env : TrainEnv) (st : TrainState) (text accent : String) (uid : Option ℕ)
        (uuid : String),
      train_accent env st text accent uid [] uuid
        = (.error ⟨400, "Empty audio upload"⟩, st))
    ∧ (∀ (env : TrainEnv) (st : TrainState) (text accent : String) (uid : Option ℕ)
        (bytes : List ℕ) (uuid path t : String) (entries : List (String × ℚ)),
        bytes ≠ [] → env.storeBytes = .ok path → env.transcribe = .ok (t, entries) →
        ∃ attempt : PracticeAttemptRow,
          ((train_accent env st text accent uid bytes uuid).1
            = .ok ⟨uuid, attempt.overall_score, attempt.feedback,
                build_tip attempt.feedback accent, t⟩)
          ∧ (train_accent env st text accent uid bytes uuid).2
            = ⟨st.attempts ++ [attempt], path :: st.stored⟩
          ∧ attempt.accent_target = accent ∧ attempt.expected_text = text
          ∧ attempt.audio_path = path)
    ∧ (∀ (s : String) (item : WordFeedback), ¬ s = "american" → ¬ s = "british" →
        accentRuleStep s item = item) := by
  refine ⟨?_, ?_, ?_⟩
  · intro env st text accent uid uuid
    rfl
  · intro env st text accent uid bytes uuid path t entries hbytes hstore htr
    cases bytes with
    | nil => exact absurd rfl hbytes
    | cons b bs =>
      refine ⟨⟨uuid, uid, accent, text, path, t,
          (evaluate_attempt text ((entries.filter (fun entry => !(entry.1 == ""))).map
            (fun entry => RecognisedWord.mk entry.1 entry.2)) accent).1,
          (evaluate_attempt text ((entries.filter (fun entry => !(entry.1 == ""))).map
            (fun entry => RecognisedWord.mk entry.1 entry.2)) accent).2⟩, ?_, ?_, rfl,
        rfl, rfl⟩
      · simp only [train_accent, List.isEmpty_cons, Bool.false_eq_true, if_false,
          hstore, htr]
      · simp only [train_accent, List.isEmpty_cons, Bool.false_eq_true, if_false,
          hstore, htr]
  · intro s item h1 h2
    simp only [accentRuleStep]
    split
    · rfl
    · rw [if_neg (by simp [h1]), if_neg (by simp [h2])]

/-- Closed instance of C7 (amended): empty audio is rejected without state change. -/
theorem c7_validation_witness :
    train_accent ⟨Except.ok "att.webm", Except.ok ("test", [("test", 95/100)])⟩
        ⟨[], []⟩ "test" "american" none [] "a1"
      = (.error ⟨400, "Empty audio upload"⟩, ⟨[], []⟩) :=
  c7_validation.1 ⟨Except.ok "att.webm", Except.ok ("test", [("test", 95/100)])⟩
    ⟨[], []⟩ "test" "american" none "a1"

/-- C8: the cleanup sweep removes exactly the rows of guest sessions created before
    the cutoff and never finalized (finalTranscript null), removes exactly the
    working buffers belonging to such sessions, and touches nothing else. -/
theorem c8_cleanup_exact (st : SysState) (now max_age_hours : ℚ) :
    (∀ r : SessionRow,
      r ∈ (cleanup_expired_sessions st now max_age_hours).db
        ↔ r ∈ st.db ∧ ¬ (r.is_guest = true ∧ r.created_at < now - max_age_hours
            ∧ r.final_transcript = none))
    ∧ (∀ b : String,
        b ∈ (cleanup_expired_sessions st now max_age_hours).buffers
          ↔ b ∈ st.buffers ∧ ¬ ∃ r ∈ st.db, (r.is_guest = true
              ∧ r.created_at < now - max_age_hours ∧ r.final_transcript = none)
              ∧ r.session_id = b)
    ∧ (cleanup_expired_sessions st now max_age_hours).archive = st.archive
    ∧ (cleanup_expired_sessions st now max_age_hours).stored = st.stored := by
  have hb : ∀ x : SessionRow, (expiredGuest (now - max_age_hours) x = true)
      ↔ (x.is_guest = true ∧ x.created_at < now - max_age_hours
          ∧ x.final_transcript = none) := by
    intro x
    unfold expiredGuest
    simp [and_assoc]
  refine ⟨?_, ?_, rfl, rfl⟩
  · intro r
    simp only [cleanup_expired_sessions, List.mem_filter]
    constructor
    · rintro ⟨hmem, hpred⟩
      refine ⟨hmem, fun hprops => ?_⟩
      rw [(hb r).mpr hprops] at hpred
      simp at hpred
    · rintro ⟨hmem, hnprops⟩
      refine ⟨hmem, ?_⟩
      cases heg : expiredGuest (now - max_age_hours) r with
      | false => rfl
      | true => exact absurd ((hb r).mp heg) hnprops
  · intro b
    simp only [cleanup_expired_sessions, List.mem_filter]
    constructor
    · rintro ⟨hmem, hpred⟩
      refine ⟨hmem, fun hex => ?_⟩
      rcases hex with ⟨x, hxmem, hxprops, hxid⟩
      have hany : st.db.any
          (fun r => expiredGuest (now - max_age_hours) r && r.session_id == b)
            = true := by
        rw [List.any_eq_true]
        refine ⟨x, hxmem, ?_⟩
        rw [Bool.and_eq_true]
        exact ⟨(hb x).mpr hxprops, by simp [hxid]⟩
      rw [hany] at hpred
      simp at hpred
    · rintro ⟨hmem, hnex⟩
      refine ⟨hmem, ?_⟩
      cases hany : st.db.any
          (fun r => expiredGuest (now - max_age_hours) r && r.session_id == b) with
      | false => rfl
      | true =>
        rw [List.any_eq_true] at hany
        rcases hany with ⟨x, hxmem, hx⟩
        rw [Bool.and_eq_true] at hx
        exact absurd ⟨x, hxmem, (hb x).mp hx.1, by simpa using hx.2⟩ hnex

/-- Closed instance of C8, Scenario E: with now = 25h and maxAgeHours = 24, a guest
    session created at hour 0 with no transcript is removed; one created at hour 24
    (one hour ago) is kept. -/
theorem c8_cleanup_exact_witness :
    (¬ (⟨"old", none, true, 0, none, none, none, none⟩ : SessionRow)
        ∈ (cleanup_expired_sessions
            ⟨[⟨"old", none, true, 0, none, none, none, none⟩,
              ⟨"new", none, true, 24, none, none, none, none⟩], ["old", "new"], [], []⟩
            25 24).db)
    ∧ (⟨"new", none, true, 24, none, none, none, none⟩ : SessionRow)
        ∈ (cleanup_expired_sessions
            ⟨[⟨"old", none, true, 0, none, none, none, none⟩,
              ⟨"new", none, true, 24, none, none, none, none⟩], ["old", "new"], [], []⟩
            25 24).db :=
  ⟨fun hmem =>
    (((c8_cleanup_exact
        ⟨[⟨"old", none, true, 0, none, none, none, none⟩,
          ⟨"new", none, true, 24, none, none, none, none⟩], ["old", "new"], [], []⟩
        25 24).1 ⟨"old", none, true, 0, none, none, none, none⟩).mp hmem).2
      ⟨rfl, by norm_num, rfl⟩,
    ((c8_cleanup_exact
        ⟨[⟨"old", none, true, 0, none, none, none, none⟩,
          ⟨"new", none, true, 24, none, none, none, none⟩], ["old", "new"], [], []⟩
        25 24).1 ⟨"new", none, true, 24, none, none, none, none⟩).mpr
      ⟨by simp, fun hprops => by
        have h := hprops.2.1
        norm_num at h⟩⟩

/-! Lemmas for the filler-word reference equivalence. -/

theorem occursAt_iff_slice (tokens phrase : List String) (idx : ℕ) :
    occursAt tokens phrase idx ↔ (tokens.drop idx).take phrase.length = phrase := by
  constructor
  · intro h
    apply List.ext_getElem?
    intro j
    by_cases hj : j < phrase.length
    · rw [List.getElem?_take, if_pos hj, List.getElem?_drop]
      have hh := h j hj
      rw [List.get?_eq_getElem?, List.get?_eq_getElem?] at hh
      exact hh
    · rw [List.getElem?_take, if_neg hj]
      symm
      exact List.getElem?_eq_none (le_of_not_lt hj)
  · intro h j hj
    have hget : ((tokens.drop idx).take phrase.length)[j]? = phrase[j]? := by rw [h]
    rw [List.getElem?_take, if_pos hj, List.getElem?_drop] at hget
    rw [List.get?_eq_getElem?, List.get?_eq_getElem?]
    exact hget

theorem not_occursAt_of_overflow (tokens phrase : List String) (idx : ℕ)
    (hp : phrase ≠ []) (hov : tokens.length < idx + phrase.length) :
    ¬ occursAt tokens phrase idx := by
  intro hocc
  have hk1 : 0 < phrase.length := List.length_pos.mpr hp
  have hj : phrase.length - 1 < phrase.length := by omega
  have hlast := hocc (phrase.length - 1) hj
  rw [List.get?_eq_getElem?, List.get?_eq_getElem?] at hlast
  have hnone : tokens[idx + (phrase.length - 1)]? = none :=
    List.getElem?_eq_none (by omega)
  have hsome : phrase[phrase.length - 1]? ≠ none := by
    intro hcn
    rw [List.getElem?_eq_none_iff] at hcn
    omega
  rw [hnone] at hlast
  exact hsome hlast.symm

theorem countOcc_eq_specOccCount (tokens phrase : List String) (hp : phrase ≠ []) :
    countOcc tokens phrase = specOccCount tokens phrase := by
  unfold countOcc specOccCount
  have hk1 : 0 < phrase.length := List.length_pos.mpr hp
  have hpt : ∀ idx : ℕ, ((tokens.drop idx).take phrase.length == phrase)
      = decide (occursAt tokens phrase idx) := by
    intro idx
    by_cases h : occursAt tokens phrase idx
    · rw [decide_eq_true h]
      have hsl := (occursAt_iff_slice tokens phrase idx).mp h
      simp [hsl]
    · rw [decide_eq_false h]
      have hne : (tokens.drop idx).take phrase.length ≠ phrase :=
        fun hsl => h ((occursAt_iff_slice tokens phrase idx).mpr hsl)
      exact beq_eq_false_iff_ne.mpr hne
  have h1 : (List.range (tokens.length + 1 - phrase.length)).countP
        (fun idx => (tokens.drop idx).take phrase.length == phrase)
      = (List.range (tokens.length + 1 - phrase.length)).countP
        (fun idx => decide (occursAt tokens phrase idx)) :=
    List.countP_congr (fun idx _ => by rw [hpt idx])
  have h2 : (List.range (tokens.length + 1)).countP
        (fun idx => decide (occursAt tokens phrase idx))
      = (List.range (tokens.length + 1 - phrase.length)).countP
        (fun idx => decide (occursAt tokens phrase idx)) := by
    by_cases hkn : phrase.length ≤ tokens.length + 1
    · set m := tokens.length + 1 - phrase.length with hm
      have hsplit : tokens.length + 1 = m + phrase.length := by omega
      rw [hsplit, List.range_add, List.countP_append]
      have hzero : ((List.range phrase.length).map
            (fun i => m + i)).countP
          (fun idx => decide (occursAt tokens phrase idx)) = 0 := by
        rw [List.countP_eq_zero]
        intro a ha
        rw [List.mem_map] at ha
        rcases ha with ⟨i, hi, rfl⟩
        rw [List.mem_range] at hi
        simp only [decide_eq_true_eq]
        exact not_occursAt_of_overflow tokens phrase _ hp (by omega)
      omega
    · have h0 : tokens.length + 1 - phrase.length = 0 := by omega
      rw [h0]
      simp only [List.range_zero, List.countP_nil]
      rw [List.countP_eq_zero]
      intro a ha
      rw [List.mem_range] at ha
      simp only [decide_eq_true_eq]
      exact not_occursAt_of_overflow tokens phrase _ hp (by omega)
  rw [h1, h2]

theorem filler_foldl_eq_sum (tokens : List String) (phrases : List (List String)) :
    ∀ a : ℕ, (∀ p ∈ phrases, p ≠ []) →
      phrases.foldl (fun total phrase =>
          if phrase.length == 0 then total else total + countOcc tokens phrase) a
        = a + (phrases.map (fun p => specOccCount tokens p)).sum := by
  induction phrases with
  | nil => intro a _; simp
  | cons p ps ih =>
    intro a h
    have hp : p ≠ [] := h p (List.mem_cons_self p ps)
    have hlen : (p.length == 0) = false := by
      rw [beq_eq_false_iff_ne]
      intro hz
      exact hp (List.length_eq_zero.mp hz)
    simp only [List.foldl_cons, hlen, Bool.false_eq_true, if_false, List.map_cons,
      List.sum_cons]
    rw [ih (a + countOcc tokens p) (fun q hq => h q (List.mem_cons_of_mem p hq))]
    rw [countOcc_eq_specOccCount tokens p hp]
    omega

/-- C9: count_filler_words agrees everywhere with the reference written from the
    specification — tokenize on word boundaries and lowercase, then sum over the
    fixed ordered phrase list the number of contiguous occurrences of each phrase;
    a missing or empty transcript yields 0. -/
theorem c9_filler_reference (transcript : Option String) :
    count_filler_words transcript = fillerReferenceCount transcript := by
  cases transcript with
  | none => rfl
  | some t =>
    by_cases ht : t = ""
    · subst ht
      decide
    · simp only [count_filler_words, fillerReferenceCount]
      rw [if_neg (by simp [ht])]
      rw [filler_foldl_eq_sum (fillerTokens t) FILLER_PHRASES 0 (by decide),
        Nat.zero_add]

end AccentPractice
